import Mathlib

/-!
Shallow embedding of the fileindexer scan-hash-reconcile engine
(`src/main.go`) and proofs of the specification's claims about it.

The embedding models:
  * the persisted `file_hashes` table as a list of `FileRecord`s,
  * `getDatabaseRecord` / `insertFileRecord` / `updateFileRecord`
    (src/main.go:254-292), with the retry-forever write loops rendered as
    fueled functions over an injected transient-failure schedule,
  * `hashFile` (src/main.go:261-270), with the MD5 digest abstracted to a
    concrete deterministic function of the byte list (the spec states the
    engine's correctness does not depend on the digest choice),
  * `processFile` (src/main.go:201-244),
  * the walk / exclusion / prefix-rewrite / CSV-sink logic of
    `processDirectory` (src/main.go:117-177), with the concurrent workers
    serialized into a fold over the walked entries (the code already
    serializes every sink access under `writerMutex`, and the spec leaves
    cross-file ordering unspecified).

Per-file I/O failures (open, stat, read-during-hash) and non-absent lookup
failures are injected through boolean fields of `WalkEntry`, mirroring the
error returns of `os.Open`, `file.Stat`, `io.Copy` and `db.QueryRow`.
-/

/-- A row of the `file_hashes` table (src/main.go:21-30): logical path
(unique key), hex digest, byte size, file modification time and the time
the hash was computed.  Timestamps are modelled as naturals. -/
structure FileRecord where
  filepath : String
  hash : String
  size : Int
  fileTimestamp : Nat
  hashTimestamp : Nat
deriving Repr, DecidableEq

/-- A node yielded by `filepath.Walk` together with the injected behaviour
of the per-file I/O and store calls made while processing it.
`content` is the byte stream of the file (one snapshot: the filesystem is
not mutated while the file is being processed). -/
structure WalkEntry where
  path : String
  isRegular : Bool
  walkErr : Bool
  openOk : Bool
  statOk : Bool
  readOk : Bool
  lookupFails : Bool
  content : List Nat
  mtime : Nat
deriving Repr, DecidableEq

/-- The scan configuration fields used by `processDirectory`
(src/main.go:32-42): the prefix stripped from stored paths and the
exclusion substrings. -/
structure Config where
  prefixStr : String
  excludeStrings : List String
deriving Repr, DecidableEq

/-- Model of the MD5 digest used by `hashFile` (src/main.go:262): an
arbitrary but concrete deterministic function of the byte stream.  The
spec (§4.1) states the digest algorithm is a design choice and the
engine's correctness depends only on it being a stable function of the
bytes. -/
def md5hex (bs : List Nat) : String :=
  toString (bs.foldl (fun a b => (a * 131 + b % 256 + 1) % 18446744073709551616) 5381)

/-- Model of `io.Copy(hasher, file)` (src/main.go:266): one linear pass
over the stream, returning the number of bytes copied together with the
digest of exactly those bytes. -/
def ioCopy (bs : List Nat) : Nat × String :=
  (bs.length, md5hex bs)

/-- `hashFile` (src/main.go:261-270): seek to offset 0, then stream the
whole file through the digest.  A read error (injected via `readOk`)
aborts with no hash.  The byte count returned by `io.Copy` is discarded,
as in the source (`_, err := io.Copy(...)`). -/
def hashFile (fd : WalkEntry) : Option String :=
  if fd.readOk then some (ioCopy fd.content).snd else none

/-- Result of `getDatabaseRecord` (src/main.go:254-259): a row, no row
(`sql.ErrNoRows`), or any other query error. -/
inductive LookupResult where
  | found (hash : String) (size : Int)
  | noRows
  | dbError
deriving Repr, DecidableEq

/-- Fetch the first stored record for a logical path, as the SQL
`SELECT ... WHERE filepath = $1` does under the unique constraint. -/
def findRecord (store : List FileRecord) (sp : String) : Option FileRecord :=
  store.find? (fun r => r.filepath = sp)

/-- `getDatabaseRecord` (src/main.go:254-259).  A connectivity/query
failure (injected via `lookupFails`) is distinct from `sql.ErrNoRows`. -/
def getDatabaseRecord (store : List FileRecord) (lookupFails : Bool) (sp : String) :
    LookupResult :=
  if lookupFails then .dbError
  else
    match findRecord store sp with
    | some r => .found r.hash r.size
    | none => .noRows

/-- The row written by both `insertFileRecord` and `updateFileRecord`. -/
def recordFor (sp h : String) (sz : Int) (mt now : Nat) : FileRecord :=
  ⟨sp, h, sz, mt, now⟩

/-- One `db.Exec` INSERT attempt (src/main.go:274): it fails if the
connection hiccups (injected `transientFail`) or if the `filepath UNIQUE`
constraint rejects the new row; on failure the store is untouched. -/
def execInsert (store : List FileRecord) (r : FileRecord) (transientFail : Bool) :
    Option (List FileRecord) :=
  if transientFail then none
  else if store.any (fun q => q.filepath = r.filepath) then none
  else some (store ++ [r])

/-- One `db.Exec` UPDATE attempt (src/main.go:285): it fails only on a
transient connection failure; otherwise every row whose `filepath`
matches is overwritten (zero matching rows is still a success,
as in SQL). -/
def execUpdate (store : List FileRecord) (sp h : String) (sz : Int) (mt now : Nat)
    (transientFail : Bool) : Option (List FileRecord) :=
  if transientFail then none
  else some (store.map (fun r => if r.filepath = sp then recordFor sp h sz mt now else r))

/-- The retry loop of `insertFileRecord` (src/main.go:272-281): re-issue
the INSERT after every failure, of any kind, sleeping 1s between attempts
(the sleep has no observable effect on the state and is not modelled).
`fuel` bounds how many attempts we observe; `none` means the loop was
still running after `fuel` attempts — the Go function has not returned.
`tf k` injects a transient failure on the k-th remaining attempt. -/
def insertFileRecord : Nat → (Nat → Bool) → List FileRecord → FileRecord →
    Option (List FileRecord)
  | 0, _, _, _ => none
  | n + 1, tf, store, r =>
    match execInsert store r (tf 0) with
    | some s => some s
    | none => insertFileRecord n (fun k => tf (k + 1)) store r

/-- The retry loop of `updateFileRecord` (src/main.go:283-292), fueled in
the same way as `insertFileRecord`. -/
def updateFileRecord : Nat → (Nat → Bool) → List FileRecord → String → String → Int →
    Nat → Nat → Option (List FileRecord)
  | 0, _, _, _, _, _, _, _ => none
  | n + 1, tf, store, sp, h, sz, mt, now =>
    match execUpdate store sp h sz mt now (tf 0) with
    | some s => some s
    | none => updateFileRecord n (fun k => tf (k + 1)) store sp h sz mt now

/-- Store state after a call to `insertFileRecord` has returned.  The Go
retry loop exits only when the INSERT succeeded, so a terminated call has
appended exactly the new row (see `insertFileRecord_some` below). -/
def insertOk (store : List FileRecord) (sp h : String) (sz : Int) (mt now : Nat) :
    List FileRecord :=
  store ++ [recordFor sp h sz mt now]

/-- Store state after a call to `updateFileRecord` has returned: every row
keyed by `sp` is overwritten (see `updateFileRecord_some` below). -/
def updateOk (store : List FileRecord) (sp h : String) (sz : Int) (mt now : Nat) :
    List FileRecord :=
  store.map (fun r => if r.filepath = sp then recordFor sp h sz mt now else r)

/-- The `(hash, size, status, err)` quadruple returned by `processFile`
(src/main.go:201): either a classified outcome or an error message. -/
inductive FileResult where
  | ok (hash : String) (size : Int) (status : String)
  | fail (msg : String)
deriving Repr, DecidableEq

/-- `processFile` (src/main.go:201-244): open, stat, look the logical path
up in the store, then classify as new / changed / existing, writing to the
store in the first two cases.  Returns the outcome and the store state
after the call.  Failure branches return the store untouched, matching the
early `return`s of the source before any `insertFileRecord` /
`updateFileRecord` call. -/
def processFile (path storedPath : String) (fd : WalkEntry) (store : List FileRecord)
    (now : Nat) : FileResult × List FileRecord :=
  if fd.openOk = false then
    (.fail ("failed to open file " ++ path), store)
  else if fd.statOk = false then
    (.fail ("failed to retrieve metadata for file " ++ path), store)
  else
    let size : Int := fd.content.length
    match getDatabaseRecord store fd.lookupFails storedPath with
    | .noRows =>
      match hashFile fd with
      | none => (.fail ("failed to hash file " ++ path), store)
      | some h => (.ok h size "new", insertOk store storedPath h size fd.mtime now)
    | .dbError => (.fail ("failed to query database for " ++ storedPath), store)
    | .found dbHash dbSize =>
      if size ≠ dbSize then
        match hashFile fd with
        | none => (.fail ("failed to hash file " ++ path), store)
        | some h => (.ok h size "changed", updateOk store storedPath h size fd.mtime now)
      else
        (.ok dbHash dbSize "existing", store)

/-- A CSV record of the result ledger: `filepath,hash,size,status`
(src/main.go:111,156,164). -/
structure CsvRow where
  filepath : String
  hash : String
  size : String
  status : String
deriving Repr, DecidableEq

/-- The CSV sink: rows buffered by `writer.Write` and rows made durable by
`writer.Flush`. -/
structure Sink where
  buffered : List CsvRow
  flushed : List CsvRow
deriving Repr, DecidableEq

/-- `writer.Write` (buffered append). -/
def sinkWrite (s : Sink) (r : CsvRow) : Sink :=
  { s with buffered := s.buffered ++ [r] }

/-- `writer.Flush`: every buffered row becomes durable. -/
def sinkFlush (s : Sink) : Sink :=
  ⟨[], s.flushed ++ s.buffered⟩

/-- Go's `strings.Contains` (src/main.go:131), on the character lists of
the strings. -/
def strContains (s sub : String) : Bool :=
  decide (List.IsInfix sub.data s.data)

/-- The exclusion test of src/main.go:130-135: skip the path when any
non-empty configured exclusion string occurs in it. -/
def shouldExclude (excludes : List String) (path : String) : Bool :=
  excludes.any (fun e => e ≠ "" && strContains path e)

/-- Go's `path[len(prefix):]` (src/main.go:139): drop the prefix's
characters from the front of the path. -/
def goSlice (s : String) (n : Nat) : String :=
  String.mk (s.data.drop n)

/-- Go's `strings.HasPrefix` (src/main.go:138), on the character lists of
the strings. -/
def goHasPrefix (s pre : String) : Bool :=
  decide (List.IsPrefix pre.data s.data)

/-- The logical path computation of src/main.go:137-140: strip the
configured prefix when it is non-empty and the path starts with it,
otherwise keep the physical path. -/
def storedPathOf (cfg : Config) (path : String) : String :=
  if cfg.prefixStr ≠ "" && goHasPrefix path cfg.prefixStr then
    goSlice path cfg.prefixStr.length
  else
    path

/-- Whether a walked node reaches the worker-dispatch point of
src/main.go:142: no walk error, a regular file, and not excluded. -/
def dispatched (cfg : Config) (e : WalkEntry) : Bool :=
  !e.walkErr && e.isRegular && !shouldExclude cfg.excludeStrings e.path

/-- One iteration of the walk callback plus the dispatched worker body
(src/main.go:121-169): skip on walk error, non-regular node, or
exclusion; otherwise process the file and append-and-flush exactly one
ledger row — the error row `storedPath,"","-1","error: <cause>"`
(src/main.go:156) or the result row `storedPath,hash,size,status`
(src/main.go:164). -/
def stepEntry (cfg : Config) (now : Nat) (acc : List FileRecord × Sink) (e : WalkEntry) :
    List FileRecord × Sink :=
  if e.walkErr then acc
  else if !e.isRegular then acc
  else if shouldExclude cfg.excludeStrings e.path then acc
  else
    let sp := storedPathOf cfg e.path
    match processFile e.path sp e acc.fst now with
    | (.fail m, store) =>
      (store, sinkFlush (sinkWrite acc.snd ⟨sp, "", "-1", "error: " ++ m⟩))
    | (.ok h sz st, store) =>
      (store, sinkFlush (sinkWrite acc.snd ⟨sp, h, toString sz, st⟩))

/-- `processDirectory` (src/main.go:117-177) over the list of nodes the
walk yields, with the concurrent workers serialized into walk order (the
sink is mutex-protected in the source and the spec leaves cross-file
ordering unspecified). -/
def processDirectory (cfg : Config) (now : Nat) (entries : List WalkEntry)
    (acc : List FileRecord × Sink) : List FileRecord × Sink :=
  entries.foldl (stepEntry cfg now) acc

/-! ### Helper lemmas about the walk callback -/

lemma dispatched_parts {cfg : Config} {e : WalkEntry} (h : dispatched cfg e = true) :
    e.walkErr = false ∧ e.isRegular = true ∧
      shouldExclude cfg.excludeStrings e.path = false := by
  simp only [dispatched, Bool.and_eq_true, Bool.not_eq_true'] at h
  exact ⟨h.1.1, h.1.2, h.2⟩

lemma stepEntry_skip {cfg : Config} {now : Nat} {acc : List FileRecord × Sink}
    {e : WalkEntry} (h : dispatched cfg e = false) :
    stepEntry cfg now acc e = acc := by
  simp only [dispatched, Bool.and_eq_false_iff, Bool.not_eq_false,
    Bool.not_eq_true, Bool.not_eq_false'] at h
  rcases h with h1 | h2
  · rcases h1 with hw | hr
    · simp [stepEntry, hw]
    · cases hwe : e.walkErr <;> simp [stepEntry, hwe, hr]
  · cases hwe : e.walkErr
    · cases hre : e.isRegular <;> simp [stepEntry, hwe, hre, h2]
    · simp [stepEntry, hwe]

lemma stepEntry_ok {cfg : Config} {now : Nat} {acc : List FileRecord × Sink}
    {e : WalkEntry} {h : String} {sz : Int} {st : String} {store : List FileRecord}
    (hd : dispatched cfg e = true)
    (hp : processFile e.path (storedPathOf cfg e.path) e acc.fst now
      = (.ok h sz st, store)) :
    stepEntry cfg now acc e
      = (store, sinkFlush (sinkWrite acc.snd ⟨storedPathOf cfg e.path, h,
          toString sz, st⟩)) := by
  obtain ⟨hw, hr, hx⟩ := dispatched_parts hd
  simp [stepEntry, hw, hr, hx, hp]

lemma shouldExclude_of_mem {excludes : List String} {path ex : String}
    (hmem : ex ∈ excludes) (hne : ex ≠ "") (hc : strContains path ex = true) :
    shouldExclude excludes path = true := by
  simp only [shouldExclude, List.any_eq_true]
  exact ⟨ex, hmem, by simp [hne, hc]⟩

lemma stepEntry_fail {cfg : Config} {now : Nat} {acc : List FileRecord × Sink}
    {e : WalkEntry} {m : String} {store : List FileRecord}
    (hd : dispatched cfg e = true)
    (hp : processFile e.path (storedPathOf cfg e.path) e acc.fst now
      = (.fail m, store)) :
    stepEntry cfg now acc e
      = (store, sinkFlush (sinkWrite acc.snd ⟨storedPathOf cfg e.path, "", "-1",
          "error: " ++ m⟩)) := by
  obtain ⟨hw, hr, hx⟩ := dispatched_parts hd
  simp [stepEntry, hw, hr, hx, hp]

/-! ### C8: exclusion skips the file entirely -/

/-- C8: a file whose path contains any configured non-empty exclusion
substring is skipped entirely by the walk callback: no ledger row is
written (neither buffered nor flushed), no store lookup, insert or update
occurs, and the store state is unchanged. -/
theorem excluded_path_skipped (cfg : Config) (now : Nat)
    (acc : List FileRecord × Sink) (e : WalkEntry) (ex : String)
    (hmem : ex ∈ cfg.excludeStrings) (hne : ex ≠ "")
    (hc : strContains e.path ex = true) :
    stepEntry cfg now acc e = acc := by
  have hx := shouldExclude_of_mem hmem hne hc
  cases hwe : e.walkErr
  · cases hre : e.isRegular <;> simp [stepEntry, hwe, hre, hx]
  · simp [stepEntry, hwe]

/-- Witness for `excluded_path_skipped` at a concrete excluded file. -/
theorem excluded_path_skipped_witness :
    ("tmp" : String) ∈ ["tmp"] ∧ ("tmp" : String) ≠ "" ∧
      strContains "/a/tmp/b.txt" "tmp" = true ∧
      stepEntry ⟨"", ["tmp"]⟩ 3 ([], ⟨[], []⟩)
        ⟨"/a/tmp/b.txt", true, false, true, true, true, false, [1], 2⟩
        = ([], ⟨[], []⟩) :=
  ⟨by decide, by decide, by decide,
    excluded_path_skipped ⟨"", ["tmp"]⟩ 3 ([], ⟨[], []⟩)
      ⟨"/a/tmp/b.txt", true, false, true, true, true, false, [1], 2⟩ "tmp"
      (by decide) (by decide) (by decide)⟩

/-! ### C10: exclusion is decided on the physical path, before the
prefix rewrite -/

/-- C10: the exclusion test runs on the physical path before the prefix
is stripped, so an exclusion substring that occurs only inside the
configured prefix — and hence nowhere in the logical path — still causes
the file to be skipped. -/
theorem exclusion_checked_on_physical_path (cfg : Config) (now : Nat)
    (acc : List FileRecord × Sink) (e : WalkEntry) (ex : String)
    (hmem : ex ∈ cfg.excludeStrings) (hne : ex ≠ "")
    (hphys : strContains e.path ex = true)
    (hlog : strContains (storedPathOf cfg e.path) ex = false) :
    stepEntry cfg now acc e = acc := by
  have hx := shouldExclude_of_mem hmem hne hphys
  cases hwe : e.walkErr
  · cases hre : e.isRegular <;> simp [stepEntry, hwe, hre, hx]
  · simp [stepEntry, hwe]

/-- Witness for `exclusion_checked_on_physical_path`: with prefix
`/mnt/i` and exclusion `mnt`, the file `/mnt/i/photos/a.jpg` is skipped
although its logical path `/photos/a.jpg` does not contain `mnt`. -/
theorem exclusion_checked_on_physical_path_witness :
    strContains "/mnt/i/photos/a.jpg" "mnt" = true ∧
      strContains (storedPathOf ⟨"/mnt/i", ["mnt"]⟩ "/mnt/i/photos/a.jpg") "mnt"
        = false ∧
      stepEntry ⟨"/mnt/i", ["mnt"]⟩ 3 ([], ⟨[], []⟩)
        ⟨"/mnt/i/photos/a.jpg", true, false, true, true, true, false, [1], 2⟩
        = ([], ⟨[], []⟩) :=
  ⟨by decide, by decide,
    exclusion_checked_on_physical_path ⟨"/mnt/i", ["mnt"]⟩ 3 ([], ⟨[], []⟩)
      ⟨"/mnt/i/photos/a.jpg", true, false, true, true, true, false, [1], 2⟩ "mnt"
      (by decide) (by decide) (by decide) (by decide)⟩

/-! ### C7: logical-path prefix rewrite -/

/-- C7: when the configured prefix is non-empty and starts the physical
path, the logical path is the physical path with the prefix removed;
otherwise (no match, or empty prefix) the logical path equals the
physical path; and for a dispatched file the ledger row is keyed by
exactly that logical path. -/
theorem logical_path_prefix_rewrite (cfg : Config) (rest path : String)
    (hp : cfg.prefixStr ≠ "") :
    storedPathOf cfg (cfg.prefixStr ++ rest) = rest ∧
    (goHasPrefix path cfg.prefixStr = false → storedPathOf cfg path = path) ∧
    (∀ cfg2 : Config, cfg2.prefixStr = "" → storedPathOf cfg2 path = path) ∧
    (∀ (e : WalkEntry) (store store2 : List FileRecord) (sink : Sink)
      (now : Nat) (h st : String) (sz : Int),
      dispatched cfg e = true →
      processFile e.path (storedPathOf cfg e.path) e store now
        = (.ok h sz st, store2) →
      stepEntry cfg now (store, sink) e
        = (store2, sinkFlush (sinkWrite sink ⟨storedPathOf cfg e.path, h,
            toString sz, st⟩))) := by
  refine ⟨?_, ?_, ?_, ?_⟩
  · have hpre : goHasPrefix (cfg.prefixStr ++ rest) cfg.prefixStr = true := by
      simp only [goHasPrefix, decide_eq_true_eq, String.data_append]
      exact List.prefix_append _ _
    simp only [storedPathOf, hp, hpre, ne_eq, not_false_eq_true, decide_True,
      Bool.true_and, if_pos, goSlice, String.data_append]
    rw [show cfg.prefixStr.length = cfg.prefixStr.data.length from rfl,
      List.drop_left]
  · intro h
    simp [storedPathOf, h]
  · intro cfg2 h2
    simp [storedPathOf, h2]
  · intro e store store2 sink now h st sz hd hpf
    exact stepEntry_ok hd hpf

/-- Witness for `logical_path_prefix_rewrite`: the spec's concrete
example `/mnt/i/photos/a.jpg` with prefix `/mnt/i`. -/
theorem logical_path_prefix_rewrite_witness :
    storedPathOf ⟨"/mnt/i", []⟩ "/mnt/i/photos/a.jpg" = "/photos/a.jpg" := by
  have h := (logical_path_prefix_rewrite ⟨"/mnt/i", []⟩ "/photos/a.jpg" ""
    (by decide)).1
  rw [show ("/mnt/i" : String) ++ "/photos/a.jpg" = "/mnt/i/photos/a.jpg" from
    rfl] at h
  exact h

/-! ### C1: three-way classification of a processed file -/

/-- C1: with open, stat and read succeeding, `processFile` classifies by
the store lookup: no row means hash, insert, outcome `new`; a non-absent
lookup error means an error outcome with the store untouched; a row with
a different stored size means hash, update, outcome `changed`. -/
theorem processFile_classification (path sp : String) (fd : WalkEntry)
    (store : List FileRecord) (now : Nat)
    (ho : fd.openOk = true) (hs : fd.statOk = true) (hr : fd.readOk = true) :
    (getDatabaseRecord store fd.lookupFails sp = .noRows →
      processFile path sp fd store now
        = (.ok (md5hex fd.content) fd.content.length "new",
           insertOk store sp (md5hex fd.content) fd.content.length fd.mtime now)) ∧
    (getDatabaseRecord store fd.lookupFails sp = .dbError →
      processFile path sp fd store now
        = (.fail ("failed to query database for " ++ sp), store)) ∧
    (∀ (dbh : String) (dbs : Int),
      getDatabaseRecord store fd.lookupFails sp = .found dbh dbs →
      (fd.content.length : Int) ≠ dbs →
      processFile path sp fd store now
        = (.ok (md5hex fd.content) fd.content.length "changed",
           updateOk store sp (md5hex fd.content) fd.content.length fd.mtime now)) := by
  refine ⟨?_, ?_, ?_⟩
  · intro hl
    simp [processFile, ho, hs, hl, hashFile, hr, ioCopy]
  · intro hl
    simp [processFile, ho, hs, hl]
  · intro dbh dbs hl hne
    simp [processFile, ho, hs, hl, hne, hashFile, hr, ioCopy]

/-- Witness for `processFile_classification` on concrete stores: an empty
store yields `new` and an insert, a failing lookup yields an error with no
write, and a store holding a different size yields `changed` and an
update. -/
theorem processFile_classification_witness :
    processFile "/a/f" "/f" ⟨"/a/f", true, false, true, true, true, false, [7, 8], 5⟩
        [] 10
      = (.ok (md5hex [7, 8]) 2 "new", [⟨"/f", md5hex [7, 8], 2, 5, 10⟩]) ∧
    processFile "/a/f" "/f" ⟨"/a/f", true, false, true, true, true, true, [7, 8], 5⟩
        [] 10
      = (.fail "failed to query database for /f", []) ∧
    processFile "/a/f" "/f" ⟨"/a/f", true, false, true, true, true, false, [7, 8], 5⟩
        [⟨"/f", "oldh", 3, 1, 1⟩] 10
      = (.ok (md5hex [7, 8]) 2 "changed", [⟨"/f", md5hex [7, 8], 2, 5, 10⟩]) := by
  refine ⟨?_, ?_, ?_⟩
  · exact (processFile_classification "/a/f" "/f"
      ⟨"/a/f", true, false, true, true, true, false, [7, 8], 5⟩ [] 10
      rfl rfl rfl).1 (by decide)
  · exact (processFile_classification "/a/f" "/f"
      ⟨"/a/f", true, false, true, true, true, true, [7, 8], 5⟩ [] 10
      rfl rfl rfl).2.1 (by decide)
  · exact (processFile_classification "/a/f" "/f"
      ⟨"/a/f", true, false, true, true, true, false, [7, 8], 5⟩
      [⟨"/f", "oldh", 3, 1, 1⟩] 10 rfl rfl rfl).2.2 "oldh" 3 (by decide) (by decide)

/-! ### C2: equal size means `existing` with the stored hash, no re-hash,
no store write -/

/-- C2: when the stored size equals the freshly observed size,
`processFile` returns `existing` with the stored hash and size and leaves
the store untouched.  No hypothesis on `readOk` is needed: the file's
bytes are never read again, so the result is the stored — possibly
stale — hash even when the content (and its digest) differs. -/
theorem processFile_existing_no_rehash (path sp : String) (fd : WalkEntry)
    (store : List FileRecord) (now : Nat) (dbh : String) (dbs : Int)
    (ho : fd.openOk = true) (hs : fd.statOk = true)
    (hl : getDatabaseRecord store fd.lookupFails sp = .found dbh dbs)
    (heq : dbs = (fd.content.length : Int)) :
    processFile path sp fd store now = (.ok dbh dbs "existing", store) := by
  simp [processFile, ho, hs, hl, heq]

/-- Witness for `processFile_existing_no_rehash`: the stored record was
hashed from bytes `[7]`, the file now holds `[9]` (same size, different
digest, and `readOk = false` so any re-hash attempt would fail), yet the
outcome is `existing` with the stale stored hash and the store is
unchanged. -/
theorem processFile_existing_no_rehash_witness :
    processFile "/a/f" "/f" ⟨"/a/f", true, false, true, true, false, false, [9], 5⟩
        [⟨"/f", md5hex [7], 1, 1, 1⟩] 10
      = (.ok (md5hex [7]) 1 "existing", [⟨"/f", md5hex [7], 1, 1, 1⟩]) ∧
    md5hex [9] ≠ md5hex [7] := by
  refine ⟨?_, by decide⟩
  exact processFile_existing_no_rehash "/a/f" "/f"
    ⟨"/a/f", true, false, true, true, false, false, [9], 5⟩
    [⟨"/f", md5hex [7], 1, 1, 1⟩] 10 (md5hex [7]) 1 rfl rfl (by decide) (by decide)

/-! ### Case enumeration for `processFile` -/

lemma hashFile_some {fd : WalkEntry} {h : String} (hh : hashFile fd = some h) :
    h = md5hex fd.content := by
  unfold hashFile at hh
  cases hr : fd.readOk <;> simp [hr, ioCopy] at hh
  exact hh.symm

lemma processFile_cases (path sp : String) (fd : WalkEntry)
    (store : List FileRecord) (now : Nat) :
    (∃ m, processFile path sp fd store now = (.fail m, store)) ∨
    processFile path sp fd store now
      = (.ok (md5hex fd.content) fd.content.length "new",
         insertOk store sp (md5hex fd.content) fd.content.length fd.mtime now) ∨
    processFile path sp fd store now
      = (.ok (md5hex fd.content) fd.content.length "changed",
         updateOk store sp (md5hex fd.content) fd.content.length fd.mtime now) ∨
    (∃ r, findRecord store sp = some r ∧
      processFile path sp fd store now = (.ok r.hash r.size "existing", store)) := by
  by_cases ho : fd.openOk = true
  case neg =>
    exact Or.inl ⟨"failed to open file " ++ path,
      by simp [processFile, Bool.eq_false_iff.mpr ho]⟩
  by_cases hs : fd.statOk = true
  case neg =>
    exact Or.inl ⟨"failed to retrieve metadata for file " ++ path,
      by simp [processFile, ho, Bool.eq_false_iff.mpr hs]⟩
  by_cases hlf : fd.lookupFails = true
  case pos =>
    exact Or.inl ⟨"failed to query database for " ++ sp,
      by simp [processFile, ho, hs, getDatabaseRecord, hlf]⟩
  have hlf' : fd.lookupFails = false := Bool.eq_false_iff.mpr hlf
  cases hfr : findRecord store sp with
  | none =>
    have hl : getDatabaseRecord store fd.lookupFails sp = .noRows := by
      simp [getDatabaseRecord, hlf', hfr]
    cases hh : hashFile fd with
    | none =>
      exact Or.inl ⟨"failed to hash file " ++ path,
        by simp [processFile, ho, hs, hl, hh]⟩
    | some h =>
      refine Or.inr (Or.inl ?_)
      rw [hashFile_some hh] at hh
      simp [processFile, ho, hs, hl, hh]
  | some r =>
    have hl : getDatabaseRecord store fd.lookupFails sp = .found r.hash r.size := by
      simp [getDatabaseRecord, hlf', hfr]
    by_cases hsz : (fd.content.length : Int) = r.size
    case pos =>
      refine Or.inr (Or.inr (Or.inr ⟨r, rfl, ?_⟩))
      simp [processFile, ho, hs, hl, hsz]
    case neg =>
      cases hh : hashFile fd with
      | none =>
        exact Or.inl ⟨"failed to hash file " ++ path,
          by simp [processFile, ho, hs, hl, hsz, hh]⟩
      | some h =>
        refine Or.inr (Or.inr (Or.inl ?_))
        rw [hashFile_some hh] at hh
        simp [processFile, ho, hs, hl, hsz, hh]

lemma processFile_fail_store {path sp : String} {fd : WalkEntry}
    {store store2 : List FileRecord} {now : Nat} {m : String}
    (hpf : processFile path sp fd store now = (.fail m, store2)) :
    store2 = store := by
  rcases processFile_cases path sp fd store now with ⟨m2, h⟩ | h | h | ⟨r, _, h⟩ <;>
    rw [h] at hpf <;> simp_all

/-! ### C4: every written record pairs the digest with the byte count of
the same single read -/

/-- C4: any record that `processFile` adds to the store carries a hash
and a size taken from one and the same linear pass over the file's
bytes: the hash is the digest `io.Copy` produced and the size is the
byte count of exactly the digested stream; records already present are
untouched.  Moreover the modelled `io.Copy` pass reports exactly the
number of bytes it digested. -/
theorem written_record_pairs_hash_and_size (path sp : String) (fd : WalkEntry)
    (store store2 : List FileRecord) (now : Nat) (res : FileResult)
    (hpf : processFile path sp fd store now = (res, store2)) :
    (∀ r ∈ store2, r ∈ store ∨
      (r.hash = (ioCopy fd.content).snd ∧
        r.size = ((ioCopy fd.content).fst : Int))) ∧
    (ioCopy fd.content).fst = fd.content.length := by
  refine ⟨?_, rfl⟩
  intro r hr
  rcases processFile_cases path sp fd store now with ⟨m, h⟩ | h | h | ⟨q, hq, h⟩
  · have heq := h.symm.trans hpf
    rw [Prod.mk.injEq] at heq
    rw [← heq.2] at hr
    exact Or.inl hr
  · have heq := h.symm.trans hpf
    rw [Prod.mk.injEq] at heq
    rw [← heq.2] at hr
    simp only [insertOk, List.mem_append, List.mem_singleton] at hr
    rcases hr with hr | rfl
    · exact Or.inl hr
    · exact Or.inr ⟨rfl, rfl⟩
  · have heq := h.symm.trans hpf
    rw [Prod.mk.injEq] at heq
    rw [← heq.2] at hr
    simp only [updateOk, List.mem_map] at hr
    obtain ⟨q, hq, rfl⟩ := hr
    by_cases hf : q.filepath = sp
    · rw [if_pos hf]
      exact Or.inr ⟨rfl, rfl⟩
    · rw [if_neg hf]
      exact Or.inl hq
  · have heq := h.symm.trans hpf
    rw [Prod.mk.injEq] at heq
    rw [← heq.2] at hr
    exact Or.inl hr

/-- Witness for `written_record_pairs_hash_and_size` on the record
inserted for a two-byte file. -/
theorem written_record_pairs_hash_and_size_witness :
    ((⟨"/f", md5hex [7, 8], 2, 5, 10⟩ : FileRecord) ∈ ([] : List FileRecord) ∨
      ((⟨"/f", md5hex [7, 8], 2, 5, 10⟩ : FileRecord).hash
          = (ioCopy [7, 8]).snd ∧
        (⟨"/f", md5hex [7, 8], 2, 5, 10⟩ : FileRecord).size
          = ((ioCopy [7, 8]).fst : Int))) ∧
    (ioCopy [7, 8]).fst = ([7, 8] : List Nat).length := by
  have h := written_record_pairs_hash_and_size "/a/f" "/f"
    ⟨"/a/f", true, false, true, true, true, false, [7, 8], 5⟩ []
    [⟨"/f", md5hex [7, 8], 2, 5, 10⟩] 10 (.ok (md5hex [7, 8]) 2 "new") (by decide)
  exact ⟨h.1 _ (by simp), h.2⟩

/-! ### C6: error outcomes write no record and one error ledger row -/

/-- C6: open, stat or hash failure, and a non-absent lookup failure, each
yield an error outcome from `processFile`; an error outcome never touches
the store, and the walk callback then writes exactly one ledger row with
an empty hash field, size `-1` and status `error: <cause>`. -/
theorem errored_file_no_write_and_error_row (cfg : Config) (now : Nat)
    (store : List FileRecord) (sink : Sink) (e : WalkEntry) (sp : String) :
    (e.openOk = false → processFile e.path sp e store now
      = (.fail ("failed to open file " ++ e.path), store)) ∧
    (e.openOk = true → e.statOk = false → processFile e.path sp e store now
      = (.fail ("failed to retrieve metadata for file " ++ e.path), store)) ∧
    (e.openOk = true → e.statOk = true → e.lookupFails = true →
      processFile e.path sp e store now
        = (.fail ("failed to query database for " ++ sp), store)) ∧
    (e.openOk = true → e.statOk = true → e.lookupFails = false →
      e.readOk = false → findRecord store sp = none →
      processFile e.path sp e store now
        = (.fail ("failed to hash file " ++ e.path), store)) ∧
    (∀ r : FileRecord, e.openOk = true → e.statOk = true →
      e.lookupFails = false → e.readOk = false →
      findRecord store sp = some r → (e.content.length : Int) ≠ r.size →
      processFile e.path sp e store now
        = (.fail ("failed to hash file " ++ e.path), store)) ∧
    (∀ (m : String) (store2 : List FileRecord), dispatched cfg e = true →
      processFile e.path (storedPathOf cfg e.path) e store now
        = (.fail m, store2) →
      store2 = store ∧
      stepEntry cfg now (store, sink) e
        = (store, sinkFlush (sinkWrite sink
            ⟨storedPathOf cfg e.path, "", "-1", "error: " ++ m⟩))) := by
  refine ⟨?_, ?_, ?_, ?_, ?_, ?_⟩
  · intro ho
    simp [processFile, ho]
  · intro ho hs
    simp [processFile, ho, hs]
  · intro ho hs hlf
    simp [processFile, ho, hs, getDatabaseRecord, hlf]
  · intro ho hs hlf hr hfr
    simp [processFile, ho, hs, getDatabaseRecord, hlf, hfr, hashFile, hr]
  · intro r ho hs hlf hr hfr hsz
    simp [processFile, ho, hs, getDatabaseRecord, hlf, hfr, hsz, hashFile, hr]
  · intro m store2 hd hpf
    have h2 := processFile_fail_store hpf
    subst h2
    exact ⟨rfl, stepEntry_fail hd hpf⟩

/-- Witness for `errored_file_no_write_and_error_row`: a file whose open
fails is reported with the `error:` row and the store stays empty. -/
theorem errored_file_no_write_and_error_row_witness :
    processFile "/a/f" "/f" ⟨"/a/f", true, false, false, true, true, false, [7], 5⟩
        [] 10
      = (.fail "failed to open file /a/f", []) ∧
    stepEntry ⟨"", []⟩ 10 ([], ⟨[], []⟩)
        ⟨"/a/f", true, false, false, true, true, false, [7], 5⟩
      = ([], sinkFlush (sinkWrite ⟨[], []⟩
          ⟨"/a/f", "", "-1", "error: failed to open file /a/f"⟩)) := by
  have h := errored_file_no_write_and_error_row ⟨"", []⟩ 10 [] ⟨[], []⟩
    ⟨"/a/f", true, false, false, true, true, false, [7], 5⟩ "/f"
  refine ⟨h.1 rfl, ?_⟩
  have h6 := h.2.2.2.2.2 "failed to open file /a/f" [] (by decide) (by decide)
  exact h6.2

/-! ### C3: colliding inserts and the retry policy -/

lemma execInsert_some {store : List FileRecord} {r : FileRecord} {t : Bool}
    {s : List FileRecord} (h : execInsert store r t = some s) :
    store.any (fun q => q.filepath = r.filepath) = false ∧ s = store ++ [r] := by
  unfold execInsert at h
  cases t
  · cases hdup : store.any (fun q => q.filepath = r.filepath) <;>
      simp [hdup] at h
    exact ⟨rfl, h.symm⟩
  · simp at h

lemma insertFileRecord_some {r : FileRecord} {fuel : Nat} :
    ∀ {tf : Nat → Bool} {store st2 : List FileRecord},
      insertFileRecord fuel tf store r = some st2 →
      store.any (fun q => q.filepath = r.filepath) = false ∧ st2 = store ++ [r] := by
  induction fuel with
  | zero =>
    intro tf store st2 h
    simp [insertFileRecord] at h
  | succ n ih =>
    intro tf store st2 h
    unfold insertFileRecord at h
    cases hx : execInsert store r (tf 0) with
    | some s =>
      rw [hx] at h
      simp only [Option.some.injEq] at h
      obtain ⟨h1, h2⟩ := execInsert_some hx
      exact ⟨h1, h ▸ h2⟩
    | none =>
      rw [hx] at h
      exact ih h

lemma execUpdate_some {store : List FileRecord} {sp h2 : String} {sz : Int}
    {mt now : Nat} {t : Bool} {s : List FileRecord}
    (h : execUpdate store sp h2 sz mt now t = some s) :
    s = updateOk store sp h2 sz mt now := by
  unfold execUpdate at h
  cases t <;> simp [updateOk] at h ⊢
  exact h.symm

lemma updateFileRecord_some {sp h2 : String} {sz : Int} {mt now : Nat} {fuel : Nat} :
    ∀ {tf : Nat → Bool} {store st2 : List FileRecord},
      updateFileRecord fuel tf store sp h2 sz mt now = some st2 →
      st2 = updateOk store sp h2 sz mt now := by
  induction fuel with
  | zero =>
    intro tf store st2 h
    simp [updateFileRecord] at h
  | succ n ih =>
    intro tf store st2 h
    unfold updateFileRecord at h
    cases hx : execUpdate store sp h2 sz mt now (tf 0) with
    | some s =>
      rw [hx] at h
      simp only [Option.some.injEq] at h
      exact h ▸ execUpdate_some hx
    | none =>
      rw [hx] at h
      exact ih h

/-- C3 counterexample: with a record for `/f` already stored and no
transient failures injected at all, `insertFileRecord` for a second
record keyed `/f` has neither succeeded nor returned an error after 50
attempts — the unique-constraint failure is not surfaced but retried like
a transient one, contradicting "surfaces the failure" and "retried
indefinitely only on transient failures". -/
theorem insert_collision_counterexample :
    insertFileRecord 50 (fun _ => false) [⟨"/f", "h0", 1, 1, 1⟩]
      ⟨"/f", "h1", 1, 2, 2⟩ = none := by
  decide

/-- C3 amended: a colliding insert never overwrites or corrupts the
stored row — every attempt leaves the store untouched — but the failure
is not surfaced: `insertFileRecord` retries every failure, unique-key
collisions included, indefinitely (with its fixed 1-second sleep between
attempts), so under a persistent collision it never returns; and whenever
`insertFileRecord` or `updateFileRecord` does return, the write really
happened (an insert appended exactly the new row to a store without that
key, an update overwrote exactly the rows with that key). -/
theorem insert_collision_never_surfaced (store : List FileRecord) (r : FileRecord)
    (hdup : store.any (fun q => q.filepath = r.filepath) = true) :
    (∀ (fuel : Nat) (tf : Nat → Bool), insertFileRecord fuel tf store r = none) ∧
    (∀ t : Bool, execInsert store r t = none) ∧
    (∀ (fuel : Nat) (tf : Nat → Bool) (store0 st2 : List FileRecord),
      insertFileRecord fuel tf store0 r = some st2 →
      store0.any (fun q => q.filepath = r.filepath) = false ∧
        st2 = store0 ++ [r]) ∧
    (∀ (fuel : Nat) (tf : Nat → Bool) (store0 st2 : List FileRecord)
      (sp h2 : String) (sz : Int) (mt now : Nat),
      updateFileRecord fuel tf store0 sp h2 sz mt now = some st2 →
      st2 = updateOk store0 sp h2 sz mt now) := by
  refine ⟨?_, ?_, ?_, ?_⟩
  · intro fuel
    induction fuel with
    | zero => intro tf; rfl
    | succ n ih =>
      intro tf
      have hnone : execInsert store r (tf 0) = none := by
        cases htf : tf 0 <;> simp [execInsert, htf, hdup]
      simp only [insertFileRecord, hnone]
      exact ih _
  · intro t
    cases t <;> simp [execInsert, hdup]
  · intro fuel tf store0 st2 h
    exact insertFileRecord_some h
  · intro fuel tf store0 st2 sp h2 sz mt now h
    exact updateFileRecord_some h

/-- Witness for `insert_collision_never_surfaced` at a concrete colliding
store, plus a concrete successful insert showing the returned state. -/
theorem insert_collision_never_surfaced_witness :
    insertFileRecord 3 (fun _ => false) [⟨"/f", "h0", 1, 1, 1⟩]
        ⟨"/f", "h1", 1, 2, 2⟩ = none ∧
    execInsert [⟨"/f", "h0", 1, 1, 1⟩] ⟨"/f", "h1", 1, 2, 2⟩ false = none ∧
    (([] : List FileRecord).any
        (fun q => q.filepath = (⟨"/f", "h1", 1, 2, 2⟩ : FileRecord).filepath)
        = false ∧
      [(⟨"/f", "h1", 1, 2, 2⟩ : FileRecord)]
        = ([] : List FileRecord) ++ [⟨"/f", "h1", 1, 2, 2⟩]) := by
  have h := insert_collision_never_surfaced [⟨"/f", "h0", 1, 1, 1⟩]
    ⟨"/f", "h1", 1, 2, 2⟩ (by decide)
  exact ⟨h.1 3 (fun _ => false), h.2.1 false,
    h.2.2.1 1 (fun _ => false) [] [⟨"/f", "h1", 1, 2, 2⟩] (by decide)⟩

/-! ### C9: one ledger row per dispatched file, flushed before completion -/

lemma stepEntry_dispatched_row {cfg : Config} {now : Nat}
    {store : List FileRecord} {sink : Sink} {e : WalkEntry}
    (hd : dispatched cfg e = true) :
    ∃ (row : CsvRow) (store2 : List FileRecord),
      stepEntry cfg now (store, sink) e = (store2, sinkFlush (sinkWrite sink row)) := by
  rcases processFile_cases e.path (storedPathOf cfg e.path) e store now with
      ⟨m, h⟩ | h | h | ⟨q, hq, h⟩
  · exact ⟨_, _, stepEntry_fail hd h⟩
  · exact ⟨_, _, stepEntry_ok hd h⟩
  · exact ⟨_, _, stepEntry_ok hd h⟩
  · exact ⟨_, _, stepEntry_ok hd h⟩

lemma sinkFlush_write_empty (fl : List CsvRow) (row : CsvRow) :
    sinkFlush (sinkWrite ⟨[], fl⟩ row) = ⟨[], fl ++ [row]⟩ := by
  simp [sinkFlush, sinkWrite]

/-- C9: every walked node that is dispatched (a regular file, no walk
error, not excluded) contributes exactly one ledger row — a status row or
an error row; skipped nodes contribute none; and the sink's buffer is
empty again after each record, so every row is flushed by the time the
scan completes. -/
theorem one_ledger_row_per_dispatched_file (cfg : Config) (now : Nat)
    (entries : List WalkEntry) :
    ∀ (store : List FileRecord) (fl : List CsvRow),
      ∃ rows : List CsvRow,
        (processDirectory cfg now entries (store, ⟨[], fl⟩)).snd
          = ⟨[], fl ++ rows⟩ ∧
        rows.length = (entries.filter (fun e => dispatched cfg e)).length := by
  induction entries with
  | nil =>
    intro store fl
    exact ⟨[], by simp [processDirectory], by simp⟩
  | cons e rest ih =>
    intro store fl
    by_cases hd : dispatched cfg e = true
    · obtain ⟨row, store2, hstep⟩ :=
        @stepEntry_dispatched_row cfg now store ⟨[], fl⟩ e hd
      obtain ⟨rows, hrows, hlen⟩ := ih store2 (fl ++ [row])
      refine ⟨[row] ++ rows, ?_, ?_⟩
      · have : processDirectory cfg now (e :: rest) (store, ⟨[], fl⟩)
            = processDirectory cfg now rest (store2, ⟨[], fl ++ [row]⟩) := by
          simp only [processDirectory, List.foldl_cons, hstep,
            sinkFlush_write_empty]
        rw [this, hrows, List.append_assoc]
      · simp [List.filter_cons, hd, hlen, Nat.add_comm]
    · have hd' : dispatched cfg e = false := by
        cases h : dispatched cfg e
        · rfl
        · exact absurd h hd
      obtain ⟨rows, hrows, hlen⟩ := ih store fl
      refine ⟨rows, ?_, ?_⟩
      · have : processDirectory cfg now (e :: rest) (store, ⟨[], fl⟩)
            = processDirectory cfg now rest (store, ⟨[], fl⟩) := by
          simp only [processDirectory, List.foldl_cons, stepEntry_skip hd']
        rw [this, hrows]
      · simp [List.filter_cons, hd', hlen]

/-! ### C5: idempotence of the scan -/

lemma processFile_new_eq {path sp : String} {fd : WalkEntry}
    {store : List FileRecord} {now : Nat}
    (ho : fd.openOk = true) (hs : fd.statOk = true) (hr : fd.readOk = true)
    (hl : getDatabaseRecord store fd.lookupFails sp = .noRows) :
    processFile path sp fd store now
      = (.ok (md5hex fd.content) fd.content.length "new",
         insertOk store sp (md5hex fd.content) fd.content.length fd.mtime now) := by
  simp [processFile, ho, hs, hl, hashFile, hr, ioCopy]

lemma processFile_existing_eq {path sp : String} {fd : WalkEntry}
    {store : List FileRecord} {now : Nat} {dbh : String} {dbs : Int}
    (ho : fd.openOk = true) (hs : fd.statOk = true)
    (hl : getDatabaseRecord store fd.lookupFails sp = .found dbh dbs)
    (heq : dbs = (fd.content.length : Int)) :
    processFile path sp fd store now = (.ok dbh dbs "existing", store) := by
  simp [processFile, ho, hs, hl, heq]

lemma findRecord_append_ne {store : List FileRecord} {r : FileRecord} {sp : String}
    (h : r.filepath ≠ sp) : findRecord (store ++ [r]) sp = findRecord store sp := by
  unfold findRecord
  rw [List.find?_append]
  cases hf : store.find? (fun q => q.filepath = sp) <;> simp [List.find?, h]

lemma findRecord_append_self {store : List FileRecord} {r : FileRecord} {sp : String}
    (hn : findRecord store sp = none) (hr : r.filepath = sp) :
    findRecord (store ++ [r]) sp = some r := by
  unfold findRecord at hn ⊢
  rw [List.find?_append, hn]
  simp [List.find?, hr]

lemma findRecord_updateOk_ne {store : List FileRecord} {sp sp' h2 : String}
    {sz : Int} {mt now : Nat} (hne : sp ≠ sp') :
    findRecord (updateOk store sp h2 sz mt now) sp' = findRecord store sp' := by
  induction store with
  | nil => rfl
  | cons a rest ih =>
    simp only [updateOk, List.map_cons] at ih ⊢
    by_cases ha : a.filepath = sp
    · rw [if_pos ha]
      unfold findRecord
      rw [List.find?_cons_of_neg, List.find?_cons_of_neg]
      · exact ih
      · simp [ha, hne]
      · simp [recordFor, hne]
    · rw [if_neg ha]
      by_cases hp : a.filepath = sp'
      · unfold findRecord
        rw [List.find?_cons_of_pos, List.find?_cons_of_pos] <;> simp [hp]
      · unfold findRecord
        rw [List.find?_cons_of_neg, List.find?_cons_of_neg]
        · exact ih
        · simp [hp]
        · simp [hp]

lemma findRecord_updateOk_self {store : List FileRecord} {sp h2 : String}
    {sz : Int} {mt now : Nat} {r : FileRecord}
    (hf : findRecord store sp = some r) :
    findRecord (updateOk store sp h2 sz mt now) sp
      = some (recordFor sp h2 sz mt now) := by
  induction store with
  | nil => simp [findRecord] at hf
  | cons a rest ih =>
    simp only [updateOk, List.map_cons] at ih ⊢
    by_cases ha : a.filepath = sp
    · rw [if_pos ha]
      unfold findRecord
      rw [List.find?_cons_of_pos]
      simp [recordFor]
    · rw [if_neg ha]
      unfold findRecord at hf ⊢
      rw [List.find?_cons_of_neg] at hf
      · rw [List.find?_cons_of_neg]
        · exact ih hf
        · simp [ha]
      · simp [ha]

lemma stepEntry_store_frame {cfg : Config} {now : Nat}
    {acc : List FileRecord × Sink} {e : WalkEntry} {sp' : String}
    (h : dispatched cfg e = true → storedPathOf cfg e.path ≠ sp') :
    findRecord (stepEntry cfg now acc e).fst sp' = findRecord acc.fst sp' := by
  by_cases hd : dispatched cfg e = true
  · have hne := h hd
    rcases processFile_cases e.path (storedPathOf cfg e.path) e acc.fst now with
        ⟨m, hh⟩ | hh | hh | ⟨q, hq, hh⟩
    · rw [stepEntry_fail hd hh]
    · rw [stepEntry_ok hd hh]
      exact findRecord_append_ne hne
    · rw [stepEntry_ok hd hh]
      exact findRecord_updateOk_ne hne
    · rw [stepEntry_ok hd hh]
  · have hd' : dispatched cfg e = false := by
      cases hdd : dispatched cfg e
      · rfl
      · exact absurd hdd hd
    rw [stepEntry_skip hd']

lemma stepEntry_store_self {cfg : Config} {now : Nat}
    {acc : List FileRecord × Sink} {e : WalkEntry}
    (hd : dispatched cfg e = true) (ho : e.openOk = true) (hs : e.statOk = true)
    (hr : e.readOk = true) (hlf : e.lookupFails = false) :
    ∃ r, findRecord (stepEntry cfg now acc e).fst (storedPathOf cfg e.path)
        = some r ∧
      r.size = (e.content.length : Int) := by
  cases hf : findRecord acc.fst (storedPathOf cfg e.path) with
  | none =>
    have hl : getDatabaseRecord acc.fst e.lookupFails (storedPathOf cfg e.path)
        = .noRows := by
      simp [getDatabaseRecord, hlf, hf]
    have hpf := @processFile_new_eq e.path (storedPathOf cfg e.path) e acc.fst now
      ho hs hr hl
    rw [stepEntry_ok hd hpf]
    exact ⟨recordFor (storedPathOf cfg e.path) (md5hex e.content)
      e.content.length e.mtime now, findRecord_append_self hf rfl, rfl⟩
  | some q =>
    have hl : getDatabaseRecord acc.fst e.lookupFails (storedPathOf cfg e.path)
        = .found q.hash q.size := by
      simp [getDatabaseRecord, hlf, hf]
    by_cases hsz : (e.content.length : Int) = q.size
    · have hpf := @processFile_existing_eq e.path (storedPathOf cfg e.path) e
        acc.fst now q.hash q.size ho hs hl hsz.symm
      rw [stepEntry_ok hd hpf]
      exact ⟨q, hf, hsz.symm⟩
    · have hpf : processFile e.path (storedPathOf cfg e.path) e acc.fst now
          = (.ok (md5hex e.content) e.content.length "changed",
             updateOk acc.fst (storedPathOf cfg e.path) (md5hex e.content)
               e.content.length e.mtime now) := by
        simp [processFile, ho, hs, hl, hsz, hashFile, hr, ioCopy]
      rw [stepEntry_ok hd hpf]
      exact ⟨recordFor (storedPathOf cfg e.path) (md5hex e.content)
        e.content.length e.mtime now, findRecord_updateOk_self hf, rfl⟩

lemma processDirectory_frame (cfg : Config) (now : Nat) :
    ∀ (entries : List WalkEntry) (acc : List FileRecord × Sink) (sp' : String),
      (∀ e ∈ entries, dispatched cfg e = true → storedPathOf cfg e.path ≠ sp') →
      findRecord (processDirectory cfg now entries acc).fst sp'
        = findRecord acc.fst sp' := by
  intro entries
  induction entries with
  | nil =>
    intro acc sp' _
    rfl
  | cons e rest ih =>
    intro acc sp' h
    have h1 : findRecord (stepEntry cfg now acc e).fst sp' = findRecord acc.fst sp' :=
      stepEntry_store_frame (h e (List.mem_cons_self e rest))
    have h2 := ih (stepEntry cfg now acc e) sp'
      (fun e' he' => h e' (List.mem_cons_of_mem e he'))
    exact h2.trans h1

lemma processDirectory_sizes (cfg : Config) (now : Nat) :
    ∀ (entries : List WalkEntry) (acc : List FileRecord × Sink),
      (∀ e ∈ entries, dispatched cfg e = true →
        e.openOk = true ∧ e.statOk = true ∧ e.readOk = true ∧
          e.lookupFails = false) →
      List.Pairwise (fun a b => dispatched cfg a = true → dispatched cfg b = true →
        storedPathOf cfg a.path ≠ storedPathOf cfg b.path) entries →
      ∀ e ∈ entries, dispatched cfg e = true →
        ∃ r, findRecord (processDirectory cfg now entries acc).fst
            (storedPathOf cfg e.path) = some r ∧
          r.size = (e.content.length : Int) := by
  intro entries
  induction entries with
  | nil =>
    intro acc _ _ e he
    exact absurd he (List.not_mem_nil e)
  | cons e0 rest ih =>
    intro acc hgood hpw e he hd
    rcases List.mem_cons.mp he with rfl | hmem
    · obtain ⟨ho, hs, hr, hlf⟩ := hgood e (List.mem_cons_self e rest) hd
      obtain ⟨r, hr1, hr2⟩ := @stepEntry_store_self cfg now acc e hd ho hs hr hlf
      refine ⟨r, ?_, hr2⟩
      have hframe := processDirectory_frame cfg now rest (stepEntry cfg now acc e)
        (storedPathOf cfg e.path)
        (fun e' he' hd' => ((List.pairwise_cons.mp hpw).1 e' he' hd hd').symm)
      exact hframe.trans hr1
    · exact ih (stepEntry cfg now acc e0)
        (fun e' he' => hgood e' (List.mem_cons_of_mem e0 he'))
        (List.pairwise_cons.mp hpw).2 e hmem hd

lemma processDirectory_existing (cfg : Config) (now : Nat) :
    ∀ (entries : List WalkEntry) (store : List FileRecord) (fl : List CsvRow),
      (∀ e ∈ entries, dispatched cfg e = true →
        e.openOk = true ∧ e.statOk = true ∧ e.lookupFails = false ∧
        ∃ r, findRecord store (storedPathOf cfg e.path) = some r ∧
          r.size = (e.content.length : Int)) →
      ∃ rows : List CsvRow,
        processDirectory cfg now entries (store, ⟨[], fl⟩)
          = (store, ⟨[], fl ++ rows⟩) ∧
        (∀ row ∈ rows, row.status = "existing") ∧
        rows.length = (entries.filter (fun e => dispatched cfg e)).length := by
  intro entries
  induction entries with
  | nil =>
    intro store fl _
    exact ⟨[], by simp [processDirectory], by simp, by simp⟩
  | cons e rest ih =>
    intro store fl h
    by_cases hd : dispatched cfg e = true
    · obtain ⟨ho, hs, hlf, r, hfr, hsz⟩ := h e (List.mem_cons_self e rest) hd
      have hl : getDatabaseRecord store e.lookupFails (storedPathOf cfg e.path)
          = .found r.hash r.size := by
        simp [getDatabaseRecord, hlf, hfr]
      have hpf := @processFile_existing_eq e.path (storedPathOf cfg e.path) e
        store now r.hash r.size ho hs hl hsz
      have hstep : stepEntry cfg now (store, ⟨[], fl⟩) e
          = (store, ⟨[], fl ++ [⟨storedPathOf cfg e.path, r.hash,
              toString r.size, "existing"⟩]⟩) := by
        rw [stepEntry_ok hd hpf, sinkFlush_write_empty]
      obtain ⟨rows, h1, h2, h3⟩ := ih store
        (fl ++ [⟨storedPathOf cfg e.path, r.hash, toString r.size, "existing"⟩])
        (fun e' he' hd' => h e' (List.mem_cons_of_mem e he') hd')
      refine ⟨⟨storedPathOf cfg e.path, r.hash, toString r.size, "existing"⟩ :: rows,
        ?_, ?_, ?_⟩
      · have hfold : processDirectory cfg now (e :: rest) (store, ⟨[], fl⟩)
            = processDirectory cfg now rest (store,
                ⟨[], fl ++ [⟨storedPathOf cfg e.path, r.hash, toString r.size,
                  "existing"⟩]⟩) := by
          simp only [processDirectory, List.foldl_cons, hstep]
        rw [hfold, h1, List.append_assoc]
        rfl
      · intro row hrow
        rcases List.mem_cons.mp hrow with rfl | hrow2
        · rfl
        · exact h2 row hrow2
      · simp [List.filter_cons, hd, h3, Nat.add_comm]
    · have hd' : dispatched cfg e = false := by
        cases hdd : dispatched cfg e
        · rfl
        · exact absurd hdd hd
      obtain ⟨rows, h1, h2, h3⟩ := ih store fl
        (fun e' he' hd2 => h e' (List.mem_cons_of_mem e he') hd2)
      refine ⟨rows, ?_, h2, ?_⟩
      · have hfold : processDirectory cfg now (e :: rest) (store, ⟨[], fl⟩)
            = processDirectory cfg now rest (store, ⟨[], fl⟩) := by
          simp only [processDirectory, List.foldl_cons, stepEntry_skip hd']
        rw [hfold, h1]
      · simp [List.filter_cons, hd', h3]

/-- C5: scanning is idempotent.  For any walked file set whose dispatched
files have pairwise distinct logical paths, with no I/O or store failures
and no filesystem changes between the runs, running the scan a second
time from the store state the first run produced leaves that store state
unchanged and emits an `existing` ledger row for every dispatched file. -/
theorem scan_idempotent (cfg : Config) (now now2 : Nat)
    (entries : List WalkEntry) (store0 : List FileRecord) (sink0 : Sink)
    (fl : List CsvRow)
    (hgood : ∀ e ∈ entries, dispatched cfg e = true →
      e.openOk = true ∧ e.statOk = true ∧ e.readOk = true ∧
        e.lookupFails = false)
    (hdist : List.Pairwise (fun a b => dispatched cfg a = true →
      dispatched cfg b = true →
      storedPathOf cfg a.path ≠ storedPathOf cfg b.path) entries) :
    ∃ rows : List CsvRow,
      processDirectory cfg now2 entries
          ((processDirectory cfg now entries (store0, sink0)).fst, ⟨[], fl⟩)
        = ((processDirectory cfg now entries (store0, sink0)).fst,
           ⟨[], fl ++ rows⟩) ∧
      (∀ row ∈ rows, row.status = "existing") ∧
      rows.length = (entries.filter (fun e => dispatched cfg e)).length := by
  apply processDirectory_existing
  intro e he hd
  obtain ⟨ho, hs, hr, hlf⟩ := hgood e he hd
  obtain ⟨r, hr1, hr2⟩ := processDirectory_sizes cfg now entries (store0, sink0)
    hgood hdist e he hd
  exact ⟨ho, hs, hlf, r, hr1, hr2⟩

/-- Witness for `scan_idempotent` on a one-file set: the second run keeps
the store from the first run and reports `existing`. -/
theorem scan_idempotent_witness :
    ∃ rows : List CsvRow,
      processDirectory ⟨"", []⟩ 20
          [⟨"/f", true, false, true, true, true, false, [7], 5⟩]
          ((processDirectory ⟨"", []⟩ 10
              [⟨"/f", true, false, true, true, true, false, [7], 5⟩]
              ([], ⟨[], []⟩)).fst, ⟨[], []⟩)
        = ((processDirectory ⟨"", []⟩ 10
              [⟨"/f", true, false, true, true, true, false, [7], 5⟩]
              ([], ⟨[], []⟩)).fst, ⟨[], [] ++ rows⟩) ∧
      (∀ row ∈ rows, row.status = "existing") ∧
      rows.length
        = (([⟨"/f", true, false, true, true, true, false, [7], 5⟩] :
            List WalkEntry).filter
              (fun e => dispatched ⟨"", []⟩ e)).length :=
  scan_idempotent ⟨"", []⟩ 10 20
    [⟨"/f", true, false, true, true, true, false, [7], 5⟩] [] ⟨[], []⟩ []
    (by decide) (by simp)
